import Mathlib

/-!
Verification of the dynamo-release gene-selection and sampling subsystem.

This file gives a shallow embedding of the algorithmic core of
`dynamo/preprocessing/gene_selection.py` and `dynamo/tools/sampling.py`
and proves (or refutes) the specification claims about it.

Modelling conventions, used throughout:
* A cells×genes numeric matrix is stored as the list of its gene columns
  (`axis=0` numpy reductions are per-column reductions, `np.min` with no
  axis is the global minimum over all entries).
* Python floats are modelled as exact rationals (`ℚ`) where the code is
  purely arithmetical, and as reals (`ℝ`) where `log` / `exp` / `sqrt` /
  fractional powers occur.  Float `NaN` is modelled as `none` of an
  `Option` type at the places where the code can produce it; `±inf` has
  no counterpart in `ℝ` and the places where it could arise are noted in
  comments next to the definitions.
* External numerical primitives that the repository treats as black boxes
  (the statsmodels Gamma-GLM fit, the sklearn SVR fit, nearest-neighbour
  queries, the numpy PRNG) are oracle parameters of the definitions.
-/

namespace Dynamo

/-- A cells×genes matrix over `ℚ`, stored as the list of its gene columns. -/
abbrev Mat := List (List ℚ)

/-- Embedding of `np.min(CM)` over both axes; junk value `0` for an empty matrix
(numpy raises on an empty array). -/
def matMin (cols : Mat) : ℚ := cols.flatten.min?.getD 0

/-- Embedding of `CM -= np.min(CM)` (gene_selection.py line 61): every entry shifted down by
the global minimum.  For a dense layer this mutates the stored matrix in place. -/
def giniShift (cols : Mat) : Mat := cols.map (fun c => c.map (fun x => x - matMin cols))

/-- The constant `0.0000001` added at line 64 so that no value is 0. -/
def giniEps : ℚ := 1 / 10000000

/-- Lines 61-64 of `compute_gini`: shift to non-negative, then add the small
constant (`CM.astype(float) + 0.0000001`, which copies the array). -/
def giniPre (cols : Mat) : Mat := (giniShift cols).map (fun c => c.map (fun x => x + giniEps))

/-- Numerator of the Gini estimator for one (already shifted) column:
`np.sum(index[:, np.newaxis] * CM, axis=0)` where the column was sorted
ascending (`np.sort(CM, axis=0)`) and `index = 2 * arange(1, n + 1) - n - 1`
(lines 67-74). -/
def giniColNum (col : List ℚ) : ℚ :=
  ((col.insertionSort (· ≤ ·)).enum.map
    (fun p => (2 * ((p.1 : ℚ) + 1) - (col.length : ℚ) - 1) * p.2)).sum

/-- Denominator `n * np.sum(CM, axis=0)` of the Gini estimator (line 74);
the sum is taken over the sorted column, which has the same sum. -/
def giniColDen (col : List ℚ) : ℚ :=
  (col.length : ℚ) * (col.insertionSort (· ≤ ·)).sum

/-- Gini coefficient of one shifted column. -/
def giniCol (col : List ℚ) : ℚ := giniColNum col / giniColDen col

/-- Embedding of `compute_gini` (gene_selection.py lines 55-76): per-gene Gini coefficients
of a matrix. -/
def compute_gini (cols : Mat) : List ℚ := (giniPre cols).map giniCol

/-- A layer of the annotated data object, tagged with its storage class.
`Gini` densifies sparse layers into a fresh array (`CM = CM.A`, line 58)
before operating on them. -/
inductive Layer
  | dense (cols : Mat)
  | sparse (cols : Mat)
  deriving DecidableEq

/-- The per-layer body of `Gini` (lines 55-92): returns the layer contents as
they are AFTER the call together with the computed gini column.  For a sparse
layer `CM = CM.A` makes a dense copy, so the stored matrix is untouched; for a
dense layer the statement `CM -= np.min(CM)` at line 61 subtracts the global
minimum from the stored matrix in place (the later `astype(float) + eps`
rebinds `CM` to a fresh array, so only the shift is visible to the caller). -/
def gini_process : Layer → Layer × List ℚ
  | .sparse cols => (.sparse cols, compute_gini cols)
  | .dense cols => (.dense (giniShift cols), compute_gini cols)

/-! Helper lemmas for the Gini claims. -/

theorem map_eq_self_of_mem {α : Type} {g : α → α} :
    ∀ {l : List α}, l.map g = l → ∀ {c : α}, c ∈ l → g c = c := by
  intro l
  induction l with
  | nil => intro _ c hc; cases hc
  | cons a t ih =>
    intro h c hc
    simp only [List.map_cons, List.cons.injEq] at h
    rcases List.mem_cons.mp hc with hc | hc
    · exact hc ▸ h.1
    · exact ih h.2 hc

theorem range_map_affine_sum (a : ℚ) :
    ∀ n : ℕ, ((List.range n).map (fun i : ℕ => 2 * ((i : ℚ) + 1) + a)).sum
      = n * (n + 1) + n * a := by
  intro n
  induction n with
  | zero => simp
  | succ n ih =>
    rw [List.range_succ, List.map_append, List.sum_append, ih]
    push_cast
    simp only [List.map_cons, List.map_nil, List.sum_cons, List.sum_nil]
    ring

/-- The Gini index weights `2*(i+1) - n - 1` for `i < n` sum to zero. -/
theorem gini_weights_sum (n : ℕ) :
    ((List.range n).map (fun i : ℕ => 2 * ((i : ℚ) + 1) - (n : ℚ) - 1)).sum = 0 := by
  have h := range_map_affine_sum (-(n : ℚ) - 1) n
  have he : (fun i : ℕ => 2 * ((i : ℚ) + 1) - (n : ℚ) - 1)
      = (fun i : ℕ => 2 * ((i : ℚ) + 1) + (-(n : ℚ) - 1)) := by
    funext i; ring
  rw [he, h]
  ring

theorem range_map_mul_sum (f : ℕ → ℚ) (v : ℚ) :
    ∀ n : ℕ, ((List.range n).map (fun i : ℕ => f i * v)).sum
      = ((List.range n).map f).sum * v := by
  intro n
  induction n with
  | zero => simp
  | succ n ih =>
    rw [List.range_succ]
    simp only [List.map_append, List.sum_append, ih, List.map_cons, List.map_nil,
      List.sum_cons, List.sum_nil]
    ring

/-- A column whose entries are all equal has Gini numerator 0. -/
theorem giniColNum_const {col : List ℚ} {v : ℚ} (hv : ∀ x ∈ col, x = v) :
    giniColNum col = 0 := by
  unfold giniColNum
  have hmem : ∀ x ∈ col.insertionSort (· ≤ ·), x = v := by
    intro x hx
    exact hv x ((List.mem_insertionSort _).mp hx)
  have hcongr : (col.insertionSort (· ≤ ·)).enum.map
        (fun p => (2 * ((p.1 : ℚ) + 1) - (col.length : ℚ) - 1) * p.2)
      = (col.insertionSort (· ≤ ·)).enum.map
        (fun p => (2 * ((p.1 : ℚ) + 1) - (col.length : ℚ) - 1) * v) := by
    apply List.map_congr_left
    intro p hp
    have hp2 : p.2 ∈ col.insertionSort (· ≤ ·) := List.snd_mem_of_mem_enum hp
    rw [hmem _ hp2]
  rw [hcongr]
  have hcomp : (col.insertionSort (· ≤ ·)).enum.map
        (fun p => (2 * ((p.1 : ℚ) + 1) - (col.length : ℚ) - 1) * v)
      = ((col.insertionSort (· ≤ ·)).enum.map Prod.fst).map
        (fun i : ℕ => (2 * ((i : ℚ) + 1) - (col.length : ℚ) - 1) * v) := by
    rw [List.map_map]
    rfl
  rw [hcomp, List.enum_map_fst, List.length_insertionSort]
  have hsplit := range_map_mul_sum
    (fun i : ℕ => 2 * ((i : ℚ) + 1) - (col.length : ℚ) - 1) v col.length
  rw [hsplit, gini_weights_sum, zero_mul]

/-- A nonempty column whose entries are all equal to a positive value has a
positive Gini denominator (so the division in the code is well defined). -/
theorem giniColDen_const_pos {col : List ℚ} {v : ℚ} (hv : ∀ x ∈ col, x = v)
    (hpos : 0 < v) (hne : col ≠ []) : 0 < giniColDen col := by
  unfold giniColDen
  have hmem : ∀ x ∈ col.insertionSort (· ≤ ·), x = v := by
    intro x hx
    exact hv x ((List.mem_insertionSort _).mp hx)
  have hsum : (col.insertionSort (· ≤ ·)).sum
      = (col.insertionSort (· ≤ ·)).length • v := List.sum_eq_card_nsmul _ _ hmem
  rw [hsum, List.length_insertionSort]
  have hlen : 0 < col.length := List.length_pos.mpr hne
  have : (0 : ℚ) < col.length • v := by
    rw [nsmul_eq_mul]
    positivity
  positivity

theorem rat_min?_le {l : List ℚ} {a x : ℚ} (h : l.min? = some a) (hx : x ∈ l) : a ≤ x := by
  have hanti : Std.Antisymm (fun x1 x2 : ℚ => x1 ≤ x2) := ⟨fun h1 h2 => le_antisymm h1 h2⟩
  have hiff := @List.min?_eq_some_iff ℚ a _ _ hanti
    (fun a => le_refl a) (fun a b => min_choice a b) (fun a b c => le_min_iff) l
  exact (hiff.mp h).2 x hx

theorem rat_min?_mem {l : List ℚ} {a : ℚ} (h : l.min? = some a) : a ∈ l :=
  List.min?_mem (fun a b => min_choice a b) h

theorem rat_min?_some {l : List ℚ} (h : l ≠ []) : ∃ a, l.min? = some a := by
  cases l with
  | nil => exact absurd rfl h
  | cons x xs => exact ⟨_, List.min?_cons⟩

/-- Entries of a matrix are bounded below by `matMin`. -/
theorem matMin_le {cols : Mat} {x : ℚ} (hx : x ∈ cols.flatten) : matMin cols ≤ x := by
  have hne : cols.flatten ≠ [] := List.ne_nil_of_mem hx
  obtain ⟨a, ha⟩ := rat_min?_some hne
  rw [matMin, ha]
  exact rat_min?_le ha hx

/-- C8: for every matrix and every constant-valued gene column (of any scale),
`compute_gini` returns one value per gene, the value for the constant column is
exactly 0, and the denominator of the Gini formula for that column is positive
(so no division by zero / error occurs for it). -/
theorem C8_gini_constant_column (cols : Mat) (j : ℕ) (c : ℚ)
    (hj : j < cols.length) (hne : cols.getD j [] ≠ [])
    (hconst : ∀ x ∈ cols.getD j [], x = c) :
    (compute_gini cols).length = cols.length ∧
    (compute_gini cols).getD j 1 = 0 ∧
    0 < giniColDen ((giniPre cols).getD j []) := by
  have hmem_col : cols.getD j [] ∈ cols := by
    rw [List.getD_eq_getElem cols [] hj]
    exact List.getElem_mem hj
  have hc_mem : c ∈ cols.getD j [] := by
    cases hcol : cols.getD j [] with
    | nil => exact absurd hcol hne
    | cons y ys =>
      have : y = c := hconst y (by rw [hcol]; exact List.mem_cons_self y ys)
      rw [← this]
      exact List.mem_cons_self y ys
  have hc_flat : c ∈ cols.flatten := List.mem_flatten.mpr ⟨_, hmem_col, hc_mem⟩
  have hmin_le : matMin cols ≤ c := matMin_le hc_flat
  -- the shifted-and-epsilon column is constant with positive value
  set v : ℚ := c - matMin cols + giniEps with hv
  have hvpos : 0 < v := by
    have : (0 : ℚ) < giniEps := by norm_num [giniEps]
    have h1 : 0 ≤ c - matMin cols := by linarith
    linarith
  have hpre_len : (giniPre cols).length = cols.length := by
    simp [giniPre, giniShift]
  have hpre_j : (giniPre cols).getD j []
      = ((cols.getD j []).map (fun x => x - matMin cols)).map (fun x => x + giniEps) := by
    have hj2 : j < (giniShift cols).length := by simp [giniShift, hj]
    have hj3 : j < (giniPre cols).length := by rw [hpre_len]; exact hj
    rw [List.getD_eq_getElem _ [] hj3]
    simp only [giniPre, giniShift]
    rw [List.getElem_map, List.getElem_map]
    rw [List.getD_eq_getElem cols [] hj]
  have hpre_const : ∀ x ∈ (giniPre cols).getD j [], x = v := by
    intro x hx
    rw [hpre_j] at hx
    obtain ⟨y, hy, hxy⟩ := List.mem_map.mp hx
    obtain ⟨z, hz, hzy⟩ := List.mem_map.mp hy
    rw [← hxy, ← hzy, hconst z hz]
  have hpre_ne : (giniPre cols).getD j [] ≠ [] := by
    rw [hpre_j]
    simp only [ne_eq, List.map_eq_nil_iff]
    exact hne
  refine ⟨by simp [compute_gini, hpre_len], ?_, ?_⟩
  · have hj3 : j < (giniPre cols).length := by rw [hpre_len]; exact hj
    have hj4 : j < (compute_gini cols).length := by
      simp [compute_gini, hpre_len, hj]
    rw [compute_gini, List.getD_eq_getElem _ 1 (by simpa [compute_gini] using hj4),
      List.getElem_map]
    have : (giniPre cols)[j] = (giniPre cols).getD j [] := by
      rw [List.getD_eq_getElem _ [] hj3]
    rw [this, giniCol, giniColNum_const hpre_const, zero_div]
  · exact giniColDen_const_pos hpre_const hvpos hpre_ne

/-- Witness for C8 at a concrete matrix: gene column 0 is the constant
column `[5, 5, 5]` at a nonzero scale. -/
theorem C8_gini_constant_column_witness :
    (compute_gini [[5, 5, 5], [1, 2, 4]]).length = 2 ∧
    (compute_gini [[5, 5, 5], [1, 2, 4]]).getD 0 1 = 0 ∧
    0 < giniColDen ((giniPre [[5, 5, 5], [1, 2, 4]]).getD 0 []) :=
  C8_gini_constant_column [[5, 5, 5], [1, 2, 4]] 0 5 (by decide) (by decide) (by decide)

/-- C10 counterexample: `Gini` on a dense layer with a nonzero global minimum
mutates the stored expression matrix (the in-place `CM -= np.min(CM)` at line
61), so the layer entries are NOT unchanged after the call. -/
theorem C10_gini_mutation_counterexample :
    (gini_process (.dense [[1, 2]])).1 ≠ .dense [[1, 2]] := by
  have hmin : matMin [[1, 2]] = 1 := by
    rw [matMin]
    rw [show ([[1, 2]] : Mat).flatten = [1, 2] from rfl, List.min?_cons]
    norm_num [min_def]
  simp only [gini_process, giniShift, hmin, ne_eq, Layer.dense.injEq, List.map_cons,
    List.map_nil, List.cons.injEq]
  norm_num

/-- C10 (amended): `Gini` leaves sparse layers unchanged (they are densified
into a fresh array first), but a dense layer is mutated in place by
subtracting the global minimum from every entry; a nonempty dense layer is
left unchanged precisely when its global minimum is 0. -/
theorem C10_gini_frame_amended :
    (∀ cols : Mat, (gini_process (.sparse cols)).1 = .sparse cols) ∧
    (∀ cols : Mat, cols.flatten ≠ [] →
      ((gini_process (.dense cols)).1 = .dense cols ↔ matMin cols = 0)) := by
  constructor
  · intro cols
    rfl
  · intro cols hne
    obtain ⟨m, hm⟩ := rat_min?_some hne
    have hmatMin : matMin cols = m := by rw [matMin, hm]; rfl
    simp only [gini_process, Layer.dense.injEq]
    constructor
    · intro h
      have hm_mem : m ∈ cols.flatten := rat_min?_mem hm
      obtain ⟨col, hcol, hmcol⟩ := List.mem_flatten.mp hm_mem
      have hcol_eq : col.map (fun x => x - matMin cols) = col :=
        map_eq_self_of_mem h hcol
      have : m - matMin cols = m := map_eq_self_of_mem hcol_eq hmcol
      rw [hmatMin] at this ⊢
      linarith
    · intro h
      have hfun : (fun x : ℚ => x - matMin cols) = fun x => x := by
        funext x
        rw [h, sub_zero]
      unfold giniShift
      rw [hfun]
      simp

/-- Witness for C10's amended statement at concrete layers. -/
theorem C10_gini_frame_witness :
    (gini_process (.sparse [[1, 2]])).1 = .sparse [[1, 2]] ∧
    ((gini_process (.dense [[3, 4]])).1 = .dense [[3, 4]] ↔ matMin [[3, 4]] = 0) :=
  ⟨C10_gini_frame_amended.1 [[1, 2]], C10_gini_frame_amended.2 [[3, 4]] (by decide)⟩

/-!  Embedding of `estimate_dispersion` (gene_selection.py lines 234-317): the pre-fit path
that claim C2 is about.  A row of the per-gene dispersion table built by
`disp_calc_helper_NB`; `mu` / `disp` are float columns in which `None` / `NaN`
(set at lines 223-224 for zero-mean genes) is modelled as `none`. -/
structure DispRow where
  mu : Option ℚ
  disp : Option ℚ
  deriving DecidableEq

/-- Pandas/numpy elementwise `!=`: a float `NaN` (modelled as `none`) compares
unequal to everything, including another `NaN`. -/
def floatNe (x y : Option ℚ) : Bool :=
  match x, y with
  | some a, some b => decide (a ≠ b)
  | _, _ => true

/-- Line 278 of `estimate_dispersion`:
`disp_table.loc[np.where(disp_table["mu"] != np.nan)[0], :]` — keep the rows
whose `mu` compares `!=` to the float `np.nan`. -/
def estimate_dispersion_filter (tbl : List DispRow) : List DispRow :=
  tbl.filter (fun r => floatNe r.mu none)

/-- Lines 275-278 of `estimate_dispersion`: the guard `if disp_table is None:
raise Exception(...)` followed by the `!= np.nan` row filter.  The result is
`none` when the exception is raised, otherwise the table that is passed on to
`parametric_dispersion_fit` at line 280.  (`disp_calc_helper_NB` unconditionally
appends a dataframe for every layer at line 229, so its output — the input
here — is never the Python `None`.) -/
def estimate_dispersion_prefit (tbl : Option (List DispRow)) : Option (List DispRow) :=
  match tbl with
  | none => none
  | some t => some (estimate_dispersion_filter t)

/-- The rows of a dispersion table with a valid (non-null) mean. -/
def validRows (tbl : List DispRow) : List DispRow := tbl.filter (fun r => r.mu.isSome)

/-- C2 is a code bug: take a dispersion table whose only row has a null mean
(as produced for a gene whose mean expression is 0), so the table has NO valid
rows.  `estimate_dispersion` does not raise: the `is None` guard cannot fire
(the helper returned a dataframe) and the `!= np.nan` filter keeps every row
(`NaN != NaN` is True elementwise), so the function proceeds into the
parametric fit with the fully invalid table, contradicting the claim (and the
function's own docstring, which promises an exception in this situation). -/
theorem C2_no_valid_rows_code_bug :
    validRows [⟨none, none⟩] = [] ∧
    estimate_dispersion_prefit (some [⟨none, none⟩]) = some [⟨none, none⟩] ∧
    (∀ tbl : List DispRow, estimate_dispersion_filter tbl = tbl) := by
  refine ⟨by decide, by decide, ?_⟩
  intro tbl
  induction tbl with
  | nil => rfl
  | cons r t ih =>
    simp only [estimate_dispersion_filter, List.filter_cons] at ih ⊢
    have : floatNe r.mu none = true := by
      unfold floatNe
      cases r.mu <;> rfl
    rw [this, ih]
    simp

/-!  Embedding of `select_genes_monocle` (gene_selection.py lines 375-461): the
expression-fraction exclusion and the final `use_for_pca` assignment that
claim C5 is about. -/

/-- Modelled from the spec: `compute_gene_exp_fraction` (imported from
`dynamo.preprocessing.utils`, which is not part of this repository snapshot).
Per §4.5 of the spec it computes each gene's fraction of total expression and
flags the genes whose fraction exceeds the threshold. -/
def compute_gene_exp_fraction (cols : Mat) (threshold : ℚ) : List ℚ × List Bool :=
  let total := (cols.map List.sum).sum
  let frac := cols.map (fun c => c.sum / total)
  (frac, frac.map (fun f => decide (threshold < f)))

/-- Lines 446-461 of `select_genes_monocle`.  Gene metadata is modelled as the
list of (gene index, `use_for_pca`) pairs; `filterBool` is the variability
selection produced by the gini/SVR branch above these lines.  The code first
sets `use_for_pca = False` for the high-fraction genes (lines 453-455) and
THEN overwrites the whole column: with `keep_filtered=True` it assigns
`filter_bool` to the column, otherwise it subsets the genes to `filter_bool`
and assigns `True` (lines 457-461). -/
def select_genes_monocle_final (cols : Mat) (usePca0 filterBool : List Bool)
    (keepFiltered : Bool) (threshold : ℚ) : List (ℕ × Bool) :=
  let invalid := (compute_gene_exp_fraction cols threshold).2
  -- lines 453-455: adata.var.loc[excluded, "use_for_pca"] = False
  let _use1 := (usePca0.zip invalid).map (fun p => if p.2 then false else p.1)
  if keepFiltered then
    -- line 458: adata.var["use_for_pca"] = filter_bool  (column overwrite)
    filterBool.enum.map (fun p => (p.1, p.2))
  else
    -- lines 460-461: adata._inplace_subset_var(filter_bool); use_for_pca = True
    (filterBool.enum.filter (fun p => p.2)).map (fun p => (p.1, true))

/-- C5 is a code bug.  Gene 0 receives 10/12 of all expression, far above the
exclusion threshold 1/2, and it passes the variability filter; yet after
`select_genes_monocle` it ends with `use_for_pca = True` for both values of
`keep_filtered`, because the final column assignments at lines 457-461
overwrite the exclusion performed at lines 453-455 (upstream dynamo performs
the exclusion AFTER the final assignment).  The claim — that such a gene
always ends with `use_for_pca = False` — is the intended behaviour. -/
theorem C5_fraction_exclusion_code_bug :
    (compute_gene_exp_fraction [[10, 0], [1, 1]] (1/2)).2 = [true, false] ∧
    select_genes_monocle_final [[10, 0], [1, 1]] [true, true] [true, true] true (1/2)
      = [(0, true), (1, true)] ∧
    select_genes_monocle_final [[10, 0], [1, 1]] [true, true] [true, true] false (1/2)
      = [(0, true), (1, true)] := by
  refine ⟨?_, by decide, by decide⟩
  have h : (compute_gene_exp_fraction [[10, 0], [1, 1]] (1/2)).1 = [10/12, 2/12] := by
    norm_num [compute_gene_exp_fraction]
  norm_num [compute_gene_exp_fraction]

/-!  Embedding of `parametric_dispersion_fit` (gene_selection.py lines 97-145), for claims
C1 and C6.  Coefficient pairs `(a, b)` live in `ℝ × ℝ`; a row of the
dispersion table is a `(mu, disp)` pair.  The statsmodels Gamma-GLM fit
(`sm.formula.glm(...).train(start_params=coefs)`) is a black-box numerical
primitive (spec §1 non-goals) and is an oracle parameter `fitO`, taking the
subsetted "good" table and the start coefficients to the fitted parameters. -/

/-- A dispersion-table row `(mu, disp)` for the Gamma fit. -/
abbrev FitRow := ℝ × ℝ

/-- Coefficient pair `(a, b)` of the fit `disp ≈ a + b / mu`. -/
abbrev Coefs := ℝ × ℝ

/-- Lines 117-118: `residuals = disp / (coefs[0] + coefs[1] / mu)`;
`good = disp_table.loc[(residuals > initial_coefs[0]) & (residuals < 10000)]`. -/
noncomputable def goodSubset (a0 : ℝ) (tbl : List FitRow) (c : Coefs) : List FitRow :=
  tbl.filter (fun r =>
    decide (a0 < r.2 / (c.1 + c.2 / r.1)) && decide (r.2 / (c.1 + c.2 / r.1) < 10000))

open Classical in
/-- Lines 130-131: `if coefs[0] < initial_coefs[0]: coefs[0] = initial_coefs[0]`. -/
noncomputable def clampA (a0 : ℝ) (c : Coefs) : Coefs :=
  if c.1 < a0 then (a0, c.2) else c

/-- Line 135, the loop's break test as WRITTEN in the code:
`if np.sum(np.log(coefs / oldcoefs) ** 2 < coefs[0]): break`.
`**` binds tighter than `<`, so the comparison is elementwise and `np.sum`
counts the `True` entries; the `if` is therefore taken as soon as AT LEAST ONE
component's squared log-ratio is below the (new) first coefficient. -/
noncomputable def stopTestCode (old new : Coefs) : Prop :=
  (Real.log (new.1 / old.1)) ^ 2 < new.1 ∨ (Real.log (new.2 / old.2)) ^ 2 < new.1

/-- Modelled from the spec: the convergence test as the spec (and the Monocle
R original, `sum(log(coefs/old_coefs)^2) < coefs[1]`) states it — the SUM of
the squared log-ratios is below the first coefficient. -/
noncomputable def stopTestSpec (old new : Coefs) : Prop :=
  (Real.log (new.1 / old.1)) ^ 2 + (Real.log (new.2 / old.2)) ^ 2 < new.1

open Classical in
/-- The `while True` loop of `parametric_dispersion_fit` (lines 116-143) with
the code's break test.  `fuel` is the number of times the code may still
increment `iter` without breaking: the source starts at `iter = 0` and breaks
when `iter > 10`, i.e. after at most 11 passes, so the loop is entered with
`fuel = 10`.  Each pass computes the good subset, refits from the current
coefficients, clamps `a` (the clamped fit result is the `coefs` of the source,
written out in full below), and tests for convergence. -/
noncomputable def pdf_loop (fitO : List FitRow → Coefs → Coefs) (tbl : List FitRow)
    (a0 : ℝ) : ℕ → Coefs → Coefs
  | fuel, coefs =>
    if stopTestCode coefs (clampA a0 (fitO (goodSubset a0 tbl coefs) coefs))
    then clampA a0 (fitO (goodSubset a0 tbl coefs) coefs)
    else
      match fuel with
      | 0 => clampA a0 (fitO (goodSubset a0 tbl coefs) coefs)
        -- iter > 10: warn "Dispersion fit didn't converge", break
      | f + 1 => pdf_loop fitO tbl a0 f (clampA a0 (fitO (goodSubset a0 tbl coefs) coefs))

/-- Embedding of `parametric_dispersion_fit` (lines 97-145): iterate from the initial
coefficients; the returned pair is the final (clamped) coefficients.  (The
returned statsmodels fit object and "good" table are not needed by any claim.) -/
noncomputable def parametric_dispersion_fit (fitO : List FitRow → Coefs → Coefs)
    (tbl : List FitRow) (initial_coefs : Coefs) : Coefs :=
  pdf_loop fitO tbl initial_coefs.1 10 initial_coefs

open Classical in
/-- Modelled from the spec: the same loop with the spec's sum-form convergence
test, for comparison against the code's behaviour. -/
noncomputable def pdf_loop_spec (fitO : List FitRow → Coefs → Coefs) (tbl : List FitRow)
    (a0 : ℝ) : ℕ → Coefs → Coefs
  | fuel, coefs =>
    if stopTestSpec coefs (clampA a0 (fitO (goodSubset a0 tbl coefs) coefs))
    then clampA a0 (fitO (goodSubset a0 tbl coefs) coefs)
    else
      match fuel with
      | 0 => clampA a0 (fitO (goodSubset a0 tbl coefs) coefs)
      | f + 1 => pdf_loop_spec fitO tbl a0 f (clampA a0 (fitO (goodSubset a0 tbl coefs) coefs))

/-- The clamp keeps the first coefficient at or above the floor. -/
theorem clampA_fst_ge (a0 : ℝ) (c : Coefs) : a0 ≤ (clampA a0 c).1 := by
  unfold clampA
  by_cases h : c.1 < a0
  · rw [if_pos h]
  · rw [if_neg h]
    exact le_of_not_lt h

theorem pdf_loop_fst_ge (fitO : List FitRow → Coefs → Coefs) (tbl : List FitRow)
    (a0 : ℝ) : ∀ (fuel : ℕ) (coefs : Coefs), a0 ≤ (pdf_loop fitO tbl a0 fuel coefs).1 := by
  intro fuel
  induction fuel with
  | zero =>
    intro coefs
    rw [pdf_loop]
    split
    · exact clampA_fst_ge a0 _
    · exact clampA_fst_ge a0 _
  | succ f ih =>
    intro coefs
    rw [pdf_loop]
    split
    · exact clampA_fst_ge a0 _
    · exact ih _

/-- C6: for every dispersion table, every behaviour of the black-box GLM fit,
and every initial coefficient pair, the first coefficient `a` returned by
`parametric_dispersion_fit` is never below the initial `a` passed in: the
clamp at lines 130-131 runs on every pass, including the one whose result is
returned. -/
theorem C6_coef_a_clamped (fitO : List FitRow → Coefs → Coefs) (tbl : List FitRow)
    (initial_coefs : Coefs) :
    initial_coefs.1 ≤ (parametric_dispersion_fit fitO tbl initial_coefs).1 :=
  pdf_loop_fst_ge fitO tbl initial_coefs.1 10 initial_coefs

/-- C1 is a code bug.  Start the fit from `initial_coefs = (1, 1)` on the
one-row table `[(1, 5)]`, with a GLM oracle that returns `(1, e²)` from the
start coefficients `(1, 1)` and `(1, e^(5/2))` from anything else.  On the
first pass the new coefficients are `(1, e²)`: the squared log-ratios are
`(0, 4)`, whose SUM `4` is not below `a = 1` — by the spec's test the loop
must continue (and with this oracle it would then converge to `(1, e^(5/2))`).
The code instead breaks immediately, because the first component satisfies
`0 < 1` and `np.sum` of the elementwise comparison is truthy, and returns
`(1, e²)`.  The code's stopping rule is componentwise-existential, not the
claimed sum rule. -/
theorem C1_convergence_test_code_bug :
    (parametric_dispersion_fit
        (fun _ c => if c.2 = 1 then (1, Real.exp 2) else (1, Real.exp (5/2)))
        [(1, 5)] (1, 1)
      = (1, Real.exp 2)) ∧
    stopTestCode (1, 1) (1, Real.exp 2) ∧
    ¬ stopTestSpec (1, 1) (1, Real.exp 2) ∧
    (pdf_loop_spec
        (fun _ c => if c.2 = 1 then (1, Real.exp 2) else (1, Real.exp (5/2)))
        [(1, 5)] 1 10 (1, 1)
      = (1, Real.exp (5/2))) ∧
    (1, Real.exp 2) ≠ ((1, Real.exp (5/2)) : Coefs) := by
  have hexp2 : (1:ℝ) < Real.exp 2 := by
    have := Real.add_one_lt_exp (by norm_num : (2:ℝ) ≠ 0)
    linarith
  have hexp52 : (1:ℝ) < Real.exp (5/2) := by
    have := Real.add_one_lt_exp (by norm_num : (5/2:ℝ) ≠ 0)
    linarith
  have hne2 : Real.exp 2 ≠ 1 := by linarith
  have hlog_one : Real.log ((1:ℝ) / 1) = 0 := by norm_num
  have hclamp2 : clampA 1 (1, Real.exp 2) = (1, Real.exp 2) := by
    unfold clampA
    norm_num
  have hclamp52 : clampA 1 (1, Real.exp (5/2)) = (1, Real.exp (5/2)) := by
    unfold clampA
    norm_num
  have hstopCode : stopTestCode (1, 1) (1, Real.exp 2) := by
    unfold stopTestCode
    left
    rw [hlog_one]
    norm_num
  have hstopSpecFalse : ¬ stopTestSpec (1, 1) (1, Real.exp 2) := by
    unfold stopTestSpec
    rw [hlog_one]
    simp only [div_one, Real.log_exp]
    norm_num
  have hstopSpec2 : stopTestSpec (1, Real.exp 2) (1, Real.exp (5/2)) := by
    unfold stopTestSpec
    rw [hlog_one]
    rw [Real.log_div (by positivity) (by positivity)]
    simp only [Real.log_exp]
    norm_num
  have hfit1 : (if (1:ℝ) = 1 then ((1:ℝ), Real.exp 2) else ((1:ℝ), Real.exp (5/2)))
      = ((1:ℝ), Real.exp 2) := if_pos rfl
  have hfit2 : (if Real.exp 2 = 1 then ((1:ℝ), Real.exp 2) else ((1:ℝ), Real.exp (5/2)))
      = ((1:ℝ), Real.exp (5/2)) := if_neg hne2
  refine ⟨?_, hstopCode, hstopSpecFalse, ?_, ?_⟩
  · rw [parametric_dispersion_fit, pdf_loop, hfit1, hclamp2, if_pos hstopCode]
  · rw [pdf_loop_spec, hfit1, hclamp2, if_neg hstopSpecFalse,
      pdf_loop_spec, hfit2, hclamp52, if_pos hstopSpec2]
  · intro h
    have h2 := congrArg Prod.snd h
    dsimp at h2
    have := Real.exp_injective h2
    norm_num at this

/-!  Embedding of `TRNET` (sampling.py lines 16-117) and the `trn` / `sample` entry points
(lines 119-154, 237-279), for claims C7 and C9.  Points and nodes are vectors
in `ℝ^d`, modelled as lists of reals. -/

/-- A point in `ℝ^d`. -/
abbrev Vec := List ℝ

/-- Elementwise difference `p - w` of two vectors. -/
def vsub (p w : Vec) : Vec := (p.zip w).map (fun q => q.1 - q.2)

/-- Dot product `d.dot(d)`. -/
def vdot (a b : Vec) : ℝ := ((a.zip b).map (fun q => q.1 * q.2)).sum

/-- Elementwise sum of two vectors. -/
def vadd (w d : Vec) : Vec := (w.zip d).map (fun q => q.1 + q.2)

/-- Scalar multiple of a vector. -/
def smulV (a : ℝ) (d : Vec) : Vec := d.map (fun x => a * x)

open Classical in
/-- Embedding of `TRNET.runOnce` (sampling.py lines 57-77).  `D = p - W`;
`sD[i] = D[i].dot(D[i])`; `I = np.argsort(sD)`; `K[I] = arange(len(I))`, so
`K[i]` is the closeness rank of node `i` (the position of `i` in the argsort
order).  numpy's argsort is a deterministic function of its input; its
unstable tie order is modelled here by a stable sort of the indices, which
fixes one deterministic tie order.  With `c == 0` every node moves by
`ep * exp(-K/l) * D`; otherwise only the nodes of rank below
`kc = -l*log(c/ep)` move. -/
noncomputable def runOnce (c l ep : ℝ) (p : Vec) (W : List Vec) : List Vec :=
  let D := W.map (fun w => vsub p w)
  let sD := D.map (fun d => vdot d d)
  let I := (List.range W.length).insertionSort (fun i j => sD.getD i 0 ≤ sD.getD j 0)
  let K := fun i : ℕ => ((I.indexOf i : ℕ) : ℝ)
  if c = 0 then
    (List.range W.length).map (fun i =>
      vadd (W.getD i []) (smulV (ep * Real.exp (-(K i) / l)) (D.getD i [])))
  else
    (List.range W.length).map (fun i =>
      if K i < -l * Real.log (c / ep) then
        vadd (W.getD i []) (smulV (ep * Real.exp (-(K i) / l)) (D.getD i []))
      else W.getD i [])

/-- Embedding of `TRNET.run` (sampling.py lines 79-91), given the pre-drawn target points
`P` (`P = self.draw_sample(tmax)`): `tmax = int(tmax * self.n_nodes)`;
`li = li * self.n_nodes`; then for `t = 1 .. tmax`: `tt = t / tmax`,
`l = li * np.power(lf / li, tt)`, `ep = ei * np.power(ef / ei, tt)`,
`runOnce(P[t - 1], l, ep, c)`.  (`np.power` with a real exponent is `rpow`;
for the negative bases on which numpy would return NaN the claims below say
nothing.) -/
noncomputable def TRNET_run (nNodes tmaxArg : ℕ) (li lf ei ef c : ℝ)
    (P : List Vec) (W0 : List Vec) : List Vec :=
  (List.range' 1 (tmaxArg * nNodes)).foldl (fun (W : List Vec) (t : ℕ) =>
    runOnce c
      ((li * nNodes) * (lf / (li * nNodes)) ^ ((t : ℝ) / ((tmaxArg * nNodes : ℕ) : ℝ)))
      (ei * (ef / ei) ^ ((t : ℝ) / ((tmaxArg * nNodes : ℕ) : ℝ)))
      (P.getD (t - 1) []) W) W0

/-- The per-step `(l, ep)` parameter schedule that `TRNET.run` uses, read off
from lines 82-89: entry `t-1` (for 1-indexed step `t` of `T = tmax * n_nodes`)
is `(li*n_nodes * (lf/(li*n_nodes))^(t/T), ei * (ef/ei)^(t/T))`. -/
noncomputable def TRNET_runParams (nNodes tmaxArg : ℕ) (li lf ei ef : ℝ) : List (ℝ × ℝ) :=
  (List.range' 1 (tmaxArg * nNodes)).map (fun t : ℕ =>
    ((li * nNodes) * (lf / (li * nNodes)) ^ ((t : ℝ) / ((tmaxArg * nNodes : ℕ) : ℝ)),
     ei * (ef / ei) ^ ((t : ℝ) / ((tmaxArg * nNodes : ℕ) : ℝ))))

/-- Modelled from the spec: the schedule exactly as claim C7 states it, with
the neighbourhood decay `l = li * (lf/li)^(t/T)` starting from the `li`
argument itself (no `n_nodes` scaling). -/
noncomputable def TRNET_runParamsSpec (nNodes tmaxArg : ℕ) (li lf ei ef : ℝ) : List (ℝ × ℝ) :=
  (List.range' 1 (tmaxArg * nNodes)).map (fun t : ℕ =>
    (li * (lf / li) ^ ((t : ℝ) / ((tmaxArg * nNodes : ℕ) : ℝ)),
     ei * (ef / ei) ^ ((t : ℝ) / ((tmaxArg * nNodes : ℕ) : ℝ))))

/-- C7 counterexample: with `n_nodes = 2`, `tmax = 1`, `li = 1/2`, `lf = 1`,
at step `t = 1` of `T = 2` the code uses decay length
`(li*n_nodes) * (lf/(li*n_nodes))^(1/2) = 1`, whereas the claimed formula
gives `li * (lf/li)^(1/2) = (1/2) * 2^(1/2) ≠ 1`: `run` rescales `li` by the
node count (line 83) before interpolating, which the claim omits. -/
theorem C7_decay_schedule_counterexample :
    (TRNET_runParams 2 1 (1/2) 1 1 1).getD 0 (0, 0)
      ≠ (TRNET_runParamsSpec 2 1 (1/2) 1 1 1).getD 0 (0, 0) := by
  have hrange : List.range' 1 (1 * 2) = [1, 2] := rfl
  intro h
  rw [TRNET_runParams, TRNET_runParamsSpec, hrange] at h
  simp only [List.map_cons, List.map_nil, List.getD_cons_zero] at h
  have h1 := congrArg Prod.fst h
  dsimp only at h1
  push_cast at h1
  rw [show ((1 : ℝ)/2 * 2) = 1 by norm_num, show ((1:ℝ) / (1/2)) = 2 by norm_num,
    show ((1:ℝ) / 1) = 1 by norm_num, Real.one_rpow, one_mul] at h1
  -- h1 : 1 = 1/2 * 2 ^ (1/2)
  have hs : (2:ℝ) ^ ((1:ℝ) / 2) = Real.sqrt 2 := (Real.sqrt_eq_rpow 2).symm
  rw [hs] at h1
  have hlt : Real.sqrt 2 < 2 := by
    nlinarith [Real.sq_sqrt (by norm_num : (0:ℝ) ≤ 2), Real.sqrt_nonneg 2]
  have h2 : Real.sqrt 2 = 2 := by linarith
  linarith

/-- C7 (amended): `TRNET.run` performs exactly `tmax * n_nodes` per-step
updates — it is the fold of `runOnce` over the `tmax * n_nodes`-entry
parameter schedule, consuming one pre-drawn random target point per step —
and at 1-indexed step `t` of `T = tmax * n_nodes` it uses
`l = (li*n_nodes) * (lf/(li*n_nodes))^(t/T)` (the initial neighbourhood
length is first scaled by the node count) and `ep = ei * (ef/ei)^(t/T)`. -/
theorem C7_decay_schedule_amended (nNodes tmaxArg : ℕ) (li lf ei ef c : ℝ)
    (P W0 : List Vec) :
    (TRNET_runParams nNodes tmaxArg li lf ei ef).length = tmaxArg * nNodes ∧
    (∀ t : ℕ, 1 ≤ t → t ≤ tmaxArg * nNodes →
      (TRNET_runParams nNodes tmaxArg li lf ei ef).getD (t - 1) (0, 0)
        = ((li * nNodes) * (lf / (li * nNodes)) ^ ((t : ℝ) / ((tmaxArg * nNodes : ℕ) : ℝ)),
           ei * (ef / ei) ^ ((t : ℝ) / ((tmaxArg * nNodes : ℕ) : ℝ)))) ∧
    TRNET_run nNodes tmaxArg li lf ei ef c P W0
      = ((TRNET_runParams nNodes tmaxArg li lf ei ef).zip
          ((List.range' 1 (tmaxArg * nNodes)).map (fun t : ℕ => P.getD (t - 1) []))).foldl
          (fun W q => runOnce c q.1.1 q.1.2 q.2 W) W0 := by
  have hlen : (TRNET_runParams nNodes tmaxArg li lf ei ef).length = tmaxArg * nNodes := by
    rw [TRNET_runParams, List.length_map, List.length_range']
  refine ⟨hlen, ?_, ?_⟩
  · intro t h1 hT
    have key : ∀ (f : ℕ → ℝ × ℝ) (T i : ℕ), i < T →
        ((List.range' 1 T).map f).getD i (0, 0) = f (1 + 1 * i) := by
      intro f T i hi
      have hi2 : i < ((List.range' 1 T).map f).length := by
        rw [List.length_map, List.length_range']; exact hi
      rw [List.getD_eq_getElem _ _ hi2, List.getElem_map, List.getElem_range']
    rw [TRNET_runParams, key _ _ _ (by omega), show 1 + 1 * (t - 1) = t by omega]
  · rw [TRNET_run, TRNET_runParams, List.zip_map', List.foldl_map]

/-- Witness for C7's amended statement at a concrete instantiation. -/
theorem C7_decay_schedule_witness :
    (TRNET_runParams 2 1 1 1 1 1).length = 1 * 2 ∧
    (TRNET_runParams 2 1 1 1 1 1).getD 0 (0, 0)
      = (2 * ((1:ℝ) / 2) ^ ((1:ℝ) / 2), 1) := by
  obtain ⟨hlen, hpar, _⟩ := C7_decay_schedule_amended 2 1 1 1 1 1 0 [] []
  refine ⟨hlen, ?_⟩
  rw [hpar 1 (by norm_num) (by norm_num)]
  push_cast
  rw [show ((1:ℝ) / 1) = 1 by norm_num, Real.one_rpow]
  norm_num

/-!  The numpy global PRNG is modelled as explicit state of an arbitrary type
`σ`: `mkState seed` is `np.random.seed(seed)` and `randint s hi n` is
`np.random.randint(0, hi, n)` run on state `s`, returning the `n` drawn
indices and the successor state.  Nearest-neighbour search (sklearn
`NearestNeighbors`, or pynndescent seeded with `random_state=seed`, lines
138-152 of sampling.py) is a deterministic function of the point cloud and
the query nodes, here the oracle `nnQuery`. -/

/-- Embedding of `TRNET.draw_sample` (sampling.py lines 42-55): re-seed the global PRNG
from the stored seed — discarding whatever state `s` it had — then draw
`n_samples` indices in `[0, X.shape[0])` and return those rows of `X`. -/
def draw_sample {σ : Type} (mkState : ℕ → σ) (randint : σ → ℕ → ℕ → List ℕ × σ)
    (X : List Vec) (seed : ℕ) (n : ℕ) (_s : σ) : List Vec × σ :=
  let s1 := mkState seed
  let r := randint s1 X.length n
  (r.1.map (fun i => X.getD i []), r.2)

/-- Embedding of `trn` (sampling.py lines 119-154) with `return_index=True`:
`TRNET(n, X, seed)` draws the initial node positions, `run` re-seeds and
pre-draws the `tmax*n` target points and relaxes the nodes, and the result is
the nearest-original-point index of each node. -/
noncomputable def trn {σ : Type} (mkState : ℕ → σ) (randint : σ → ℕ → ℕ → List ℕ × σ)
    (nnQuery : List Vec → List Vec → List ℕ) (X : List Vec) (n : ℕ) (seed : ℕ)
    (tmaxArg : ℕ) (li lf ei ef c : ℝ) (s : σ) : List ℕ × σ :=
  let w := draw_sample mkState randint X seed n s
  let p := draw_sample mkState randint X seed (tmaxArg * n) w.2
  (nnQuery X (TRNET_run n tmaxArg li lf ei ef c p.1 w.1), p.2)

/-- Embedding of `sample` with `method="trn"` (sampling.py lines 273-274):
`sub_arr = arr[trn(X=X, n=n, return_index=True, seed=seed, **kwargs)]`. -/
noncomputable def sample_trn {σ : Type} (mkState : ℕ → σ) (randint : σ → ℕ → ℕ → List ℕ × σ)
    (nnQuery : List Vec → List Vec → List ℕ) (arr : List ℕ) (n : ℕ) (X : List Vec)
    (seed : ℕ) (tmaxArg : ℕ) (li lf ei ef c : ℝ) (s : σ) : List ℕ × σ :=
  let r := trn mkState randint nnQuery X n seed tmaxArg li lf ei ef c s
  (r.1.map (fun i => arr.getD i 0), r.2)

/-- C9: `sample` with `method="trn"` is deterministic given the seed.  For any
PRNG implementation, any deterministic nearest-neighbour backend, and any
inputs and keyword arguments, two calls that start from ARBITRARY (different)
ambient PRNG states return the same index array: every random draw happens in
`TRNET.draw_sample`, which first re-seeds the global PRNG with the stored
seed, so the result depends only on the seed, never on the pre-existing
state. -/
theorem C9_trn_sample_deterministic {σ : Type} (mkState : ℕ → σ)
    (randint : σ → ℕ → ℕ → List ℕ × σ) (nnQuery : List Vec → List Vec → List ℕ)
    (arr : List ℕ) (n : ℕ) (X : List Vec) (seed : ℕ)
    (tmaxArg : ℕ) (li lf ei ef c : ℝ) (s1 s2 : σ) :
    (sample_trn mkState randint nnQuery arr n X seed tmaxArg li lf ei ef c s1).1
      = (sample_trn mkState randint nnQuery arr n X seed tmaxArg li lf ei ef c s2).1 := rfl

/-!  Embedding of `select_genes_by_seurat_dispersion` (gene_selection.py lines 895-983) and
`get_highly_variable_mask_by_dispersion_svr` (lines 986-1041), for claims C3
and C4.  Real-valued matrices here (the pipeline takes logs and square
roots). -/

/-- A cells×genes matrix over `ℝ`, stored as the list of its gene columns. -/
abbrev MatR := List (List ℝ)

/-- Per-gene mean (part of `seurat_get_mean_var`, modelled from the spec:
the helper lives in `preprocessor_utils`, which is not in this snapshot;
spec §4.1 prescribes the mean and the population variance `E[X²] − E[X]²`). -/
noncomputable def colMeanR (c : List ℝ) : ℝ := c.sum / c.length

/-- Modelled from the spec: per-gene population variance `E[X²] − E[X]²`
(see `colMeanR`). -/
noncomputable def colVarR (c : List ℝ) : ℝ :=
  (c.map (fun x => x ^ 2)).sum / c.length - colMeanR c ^ 2

open Classical in
/-- Lines 936-944: per-gene mean and dispersion; `dispersion = variance/mean`;
with `log_mean_and_dispersion` the mean is `np.log1p`ed and the dispersion is
logged after zeros are replaced by NaN (`none`) — numpy's log of a NEGATIVE
dispersion is NaN as well, so every nonpositive dispersion becomes `none`.
(A zero mean would make `variance/mean` a float `±inf`/NaN where `ℝ` division
returns the junk 0; no claim below evaluates a zero-mean gene.) -/
noncomputable def seuratMeanDisp (mat : MatR) (logFlag : Bool) : List ℝ × List (Option ℝ) :=
  if logFlag then
    ((mat.map colMeanR).map (fun m => Real.log (1 + m)),
     (mat.map (fun c => colVarR c / colMeanR c)).map
       (fun d => if d ≤ 0 then none else some (Real.log d)))
  else
    (mat.map colMeanR, (mat.map (fun c => colVarR c / colMeanR c)).map some)

/-- Value of `np.min` of the (transformed) means; junk 0 for an empty list. -/
noncomputable def listMinR (l : List ℝ) : ℝ := l.min?.getD 0

/-- Value of `np.max` of the (transformed) means; junk 0 for an empty list. -/
noncomputable def listMaxR (l : List ℝ) : ℝ := l.max?.getD 0

open Classical in
/-- Embedding of `pd.cut(mean, bins=n_bins)` (line 949): `n_bins + 1` equal-width edges
from the min to the max mean, the lowest edge lowered by 0.1% of the range;
bin `i` is the left-open right-closed interval between edges `i` and `i+1`;
a value in no bin gets pandas' NaN bin (`none`).  (pandas special-cases a
zero range `min = max`; no claim below uses that case.) -/
noncomputable def binIndex (mn mx : ℝ) (nb : ℕ) (x : ℝ) : Option ℕ :=
  (List.range nb).find? (fun i =>
    decide ((if i = 0 then mn - (mx - mn) / 1000 else mn + (mx - mn) * i / nb) < x
      ∧ x ≤ mn + (mx - mn) * (i + 1) / nb))

open Classical in
/-- The valid (non-NaN) dispersions of the genes falling in bin `b`
(`disp_grouped = temp_df.groupby("mean_bin")["dispersion"]`, line 950;
pandas group statistics skip NaN entries). -/
noncomputable def binDisps (mean : List ℝ) (disp : List (Option ℝ)) (nb : ℕ) (b : ℕ) :
    List ℝ :=
  ((mean.zip disp).filter (fun p =>
    decide (binIndex (listMinR mean) (listMaxR mean) nb p.1 = some b))).filterMap
    (fun p => p.2)

open Classical in
/-- Lines 951-958: per-bin mean and sample (`ddof=1`) standard deviation of
the dispersions, followed by the backfill.  The std of a bin with fewer than
two valid entries is NaN (`one_gene_per_bin = disp_std_bin.isnull()`), and for
those bins `disp_std_bin` is backfilled with the bin mean and `disp_mean_bin`
with 0; the result is the `(mean, std)` pair AFTER the backfill. -/
noncomputable def binStats (mean : List ℝ) (disp : List (Option ℝ)) (nb : ℕ) (b : ℕ) :
    Option ℝ × Option ℝ :=
  if (binDisps mean disp nb b).length ≤ 1 then
    (some 0,
     if (binDisps mean disp nb b).length = 0 then none
     else some ((binDisps mean disp nb b).sum / (binDisps mean disp nb b).length))
  else
    (some ((binDisps mean disp nb b).sum / (binDisps mean disp nb b).length),
     some (Real.sqrt
       (((binDisps mean disp nb b).map
         (fun x => (x - (binDisps mean disp nb b).sum / (binDisps mean disp nb b).length) ^ 2)).sum
         / ((binDisps mean disp nb b).length - 1))))

open Classical in
/-- Lines 960-965: per-gene normalized dispersion
`((dispersion - bin_mean) / bin_std).fillna(0)`.  A NaN anywhere (NaN
dispersion, NaN bin, NaN bin statistic, or the 0/0 of a zero std) propagates
to a NaN that `fillna(0)` replaces by 0.  (For a zero bin std and a
dispersion different from the bin mean numpy produces `±inf`, which `fillna`
keeps; `±inf` has no counterpart in `ℝ` and is mapped to 0 here too — no
claim below evaluates that case.) -/
noncomputable def dispersion_norm (mat : MatR) (logFlag : Bool) (nb : ℕ) : List ℝ :=
  ((seuratMeanDisp mat logFlag).1.zip (seuratMeanDisp mat logFlag).2).map (fun p =>
    match binIndex (listMinR (seuratMeanDisp mat logFlag).1)
        (listMaxR (seuratMeanDisp mat logFlag).1) nb p.1 with
    | none => 0
    | some b =>
      match p.2, (binStats (seuratMeanDisp mat logFlag).1 (seuratMeanDisp mat logFlag).2 nb b).1,
          (binStats (seuratMeanDisp mat logFlag).1 (seuratMeanDisp mat logFlag).2 nb b).2 with
      | some d, some m, some s => if s = 0 then 0 else (d - m) / s
      | _, _, _ => 0)

/-- Lines 969-970: `threshold = dispersion_norm.nlargest(n_top_genes).values[-1]`
— the `n`-th largest value, or the smallest of all when fewer than `n` exist;
`none` models the IndexError pandas raises for an empty series or `n = 0`. -/
def nlargestLast {α : Type} [LinearOrder α] (vals : List α) (n : ℕ) : Option α :=
  ((vals.insertionSort (fun a b => b ≤ a)).take n).getLast?

/-- Lines 967-971, the top-N branch of `select_genes_by_seurat_dispersion`:
`highly_variable_mask = dispersion_norm >= threshold`.  Every gene whose
normalized dispersion TIES with the threshold value is included, so the mask
can contain more than `n` True entries. -/
def seurat_top_mask {α : Type} [LinearOrder α] (vals : List α) (n : ℕ) : Option (List Bool) :=
  (nlargestLast vals n).map (fun t => vals.map (fun v => decide (t ≤ v)))

open Classical in
/-- Embedding of `select_genes_by_seurat_dispersion` (lines 895-983), reduced to the
returned highly-variable mask.  With `n_top_genes` present the top-N branch
runs; otherwise the four cutoffs are ANDed (lines 973-981).  NOTE, faithful
to lines 961-963: by the time the cutoff branch runs, `mean` has been REBOUND
to each gene's (backfilled) bin dispersion mean, so `min_mean`/`max_mean` are
compared against that value, not the gene's mean expression; comparisons
against a NaN bin statistic are False. -/
noncomputable def select_genes_by_seurat_dispersion (mat : MatR) (nb : ℕ) (logFlag : Bool)
    (minDisp maxDisp minMean maxMean : ℝ) (nTop : Option ℕ) : Option (List Bool) :=
  match nTop with
  | some n => seurat_top_mask (dispersion_norm mat logFlag nb) n
  | none => some
      (((seuratMeanDisp mat logFlag).1.zip (dispersion_norm mat logFlag nb)).map (fun p =>
        match binIndex (listMinR (seuratMeanDisp mat logFlag).1)
            (listMaxR (seuratMeanDisp mat logFlag).1) nb p.1 with
        | none => false
        | some b =>
          match (binStats (seuratMeanDisp mat logFlag).1
              (seuratMeanDisp mat logFlag).2 nb b).1 with
          | none => false
          | some bm => decide (minMean < bm ∧ bm < maxMean ∧ minDisp < p.2 ∧ p.2 < maxDisp)))

open Classical in
/-- Model of `np.log2` on `Option ℝ`, NaN (`none`) for nonpositive arguments.  (numpy
returns `-inf` for 0 and NaN only for negatives; a `-inf` among the
regression inputs would make sklearn's `fit` raise, so both invalid cases are
folded into `none` here; the theorems below avoid zero means/variances.) -/
noncomputable def flog2 (x : ℝ) : Option ℝ := if x ≤ 0 then none else some (Real.logb 2 x)

/-- Lines 1015-1032 of `get_highly_variable_mask_by_dispersion_svr`:
`mean_log = log2(mean)`, `cv_log = log2(sqrt(var)/mean)`; rows with NaN in
either are excluded from the SVR fit and keep NaN scores (`np.repeat(np.nan)`
then assignment at the valid positions); a valid row scores
`cv_log - classifier.predict(mean_log)`.  The fitted SVR's prediction
function is the black-box oracle `predict`. -/
noncomputable def svrScores (mean var : List ℝ) (predict : ℝ → ℝ) : List (Option ℝ) :=
  (List.range mean.length).map (fun i =>
    match flog2 (mean.getD i 0), flog2 (Real.sqrt (var.getD i 0) / mean.getD i 0) with
    | some lm, some lcv => some (lcv - predict lm)
    | _, _ => none)

open Classical in
/-- Lines 1034-1038: `n_top_genes = min(n_top_genes, len(mean))`;
`score_threshold = np.sort(-scores)[n_top_genes - 1]`;
`highly_variable_mask = scores >= score_threshold`, flattened.
`scores` has shape `(n_genes, 1)` after the reshape at line 1032, so
`np.sort` along the default last axis sorts rows of length 1 — a no-op —
and the indexing picks the ROW `n_top_genes - 1`: the threshold is the
negated score of the gene at position `n_top_genes - 1` in the ORIGINAL
order, not the `n`-th largest score.  Comparisons against NaN are False. -/
noncomputable def svr_mask (mean var : List ℝ) (predict : ℝ → ℝ) (nTop : ℕ) : List Bool :=
  (svrScores mean var predict).map (fun sc =>
    match sc, ((svrScores mean var predict).getD (min nTop mean.length - 1) none).map
        (fun x => -x) with
    | some x, some t => decide (t ≤ x)
    | _, _ => false)

/-- At least `min n (length vals)` values compare `≥` the `n`-th largest one:
the lower bound side of the top-N mask cardinality (ties at the threshold can
push the count strictly higher). -/
theorem count_ge_of_nlargestLast {α : Type} [LinearOrder α] (vals : List α) (n : ℕ)
    (t : α) (hn : 0 < n) (ht : nlargestLast vals n = some t) :
    min n vals.length ≤ (vals.map (fun v => decide (t ≤ v))).count true := by
  classical
  haveI htot : IsTotal α (fun a b : α => b ≤ a) := ⟨fun a b => le_total b a⟩
  haveI htrans : IsTrans α (fun a b : α => b ≤ a) := ⟨fun a b c h1 h2 => le_trans h2 h1⟩
  have hperm : (vals.insertionSort (fun a b => b ≤ a)).Perm vals :=
    List.perm_insertionSort _ vals
  have hsorted : (vals.insertionSort (fun a b => b ≤ a)).Sorted (fun a b => b ≤ a) :=
    List.sorted_insertionSort _ vals
  set s := vals.insertionSort (fun a b : α => b ≤ a) with hs
  have hslen : s.length = vals.length := hperm.length_eq
  have hsne : s ≠ [] := by
    intro h
    rw [nlargestLast, ← hs, h] at ht
    simp at ht
  have hlenpos : 0 < s.length := List.length_pos.mpr hsne
  have hklt : min n s.length - 1 < s.length := by omega
  have htk : s[min n s.length - 1]? = some t := by
    rw [nlargestLast, ← hs, List.getLast?_eq_getElem?, List.length_take,
      List.getElem?_take] at ht
    rw [if_pos (by omega : min n s.length - 1 < n)] at ht
    exact ht
  obtain ⟨hklt2, hkt⟩ := List.getElem?_eq_some_iff.mp htk
  have hall : ∀ x ∈ s.take (min n s.length - 1 + 1), t ≤ x := by
    intro x hx
    obtain ⟨i, hi, hxi⟩ := List.getElem_of_mem hx
    rw [List.getElem_take] at hxi
    have hik : i ≤ min n s.length - 1 := by
      rw [List.length_take] at hi
      omega
    have hrel : s.get ⟨min n s.length - 1, hklt⟩ ≤ s.get ⟨i, by omega⟩ :=
      hsorted.rel_get_of_le (by exact hik)
    rw [← hxi]
    calc t = s[min n s.length - 1] := hkt.symm
    _ ≤ s[i] := hrel
  have hcount_take : (s.take (min n s.length - 1 + 1)).countP (fun v => decide (t ≤ v))
      = (s.take (min n s.length - 1 + 1)).length := by
    rw [List.countP_eq_length]
    intro a ha
    simpa using hall a ha
  have hlen_take : (s.take (min n s.length - 1 + 1)).length = min n s.length := by
    rw [List.length_take]
    omega
  have hcount_s : min n s.length ≤ s.countP (fun v => decide (t ≤ v)) := by
    conv_rhs => rw [← List.take_append_drop (min n s.length - 1 + 1) s]
    rw [List.countP_append, hcount_take, hlen_take]
    omega
  have hmask : (vals.map (fun v => decide (t ≤ v))).count true
      = vals.countP (fun v => decide (t ≤ v)) := by
    rw [List.count_eq_countP, List.countP_map]
    apply List.countP_congr
    intro a _
    simp
  rw [hmask, ← hperm.countP_eq, ← hslen]
  exact hcount_s

theorem seuratMeanDisp_fst_length (mat : MatR) (logFlag : Bool) :
    (seuratMeanDisp mat logFlag).1.length = mat.length := by
  cases logFlag <;> simp [seuratMeanDisp]

theorem seuratMeanDisp_snd_length (mat : MatR) (logFlag : Bool) :
    (seuratMeanDisp mat logFlag).2.length = mat.length := by
  cases logFlag <;> simp [seuratMeanDisp]

theorem dispersion_norm_length (mat : MatR) (logFlag : Bool) (nb : ℕ) :
    (dispersion_norm mat logFlag nb).length = mat.length := by
  rw [dispersion_norm, List.length_map, List.length_zip, seuratMeanDisp_fst_length,
    seuratMeanDisp_snd_length, min_self]

/-- C3 (amended): both selectors return one mask entry per gene evaluated, but
the number of `True` entries need not equal `n_top_genes`.  For the Seurat
selector it is AT LEAST `min n_top_genes #genes` — all genes tying with the
threshold value are included, so the count can exceed `n_top_genes` (see the
counterexample).  For the SVR selector the mask length equals the gene count,
but its threshold is the negated score of the gene at position `n_top - 1` in
input order (the `np.sort` over the `genes×1` score array is a per-row
no-op), so its true-count bears no general relation to `n_top_genes`. -/
theorem C3_mask_length_and_count_amended :
    (∀ (mat : MatR) (nb : ℕ) (logFlag : Bool) (minDisp maxDisp minMean maxMean : ℝ)
      (n : ℕ), 0 < n → mat ≠ [] →
      ∃ m, select_genes_by_seurat_dispersion mat nb logFlag minDisp maxDisp minMean maxMean
            (some n) = some m ∧
        m.length = mat.length ∧ min n mat.length ≤ m.count true) ∧
    (∀ (mean var : List ℝ) (predict : ℝ → ℝ) (nTop : ℕ),
      (svr_mask mean var predict nTop).length = mean.length) := by
  constructor
  · intro mat nb logFlag d1 d2 m1 m2 n hn hmat
    have hdn : (dispersion_norm mat logFlag nb).length = mat.length :=
      dispersion_norm_length mat logFlag nb
    have hmatlen : 0 < mat.length := List.length_pos.mpr hmat
    have hne : dispersion_norm mat logFlag nb ≠ [] := by
      intro h
      rw [h] at hdn
      simp at hdn
      omega
    have hsne : (dispersion_norm mat logFlag nb).insertionSort (fun a b => b ≤ a) ≠ [] := by
      intro h
      have := congrArg List.length h
      rw [List.length_insertionSort] at this
      exact hne (List.length_eq_zero.mp (by simpa using this))
    have htake : ((dispersion_norm mat logFlag nb).insertionSort
        (fun a b => b ≤ a)).take n ≠ [] := by
      rw [ne_eq, List.take_eq_nil_iff]
      push_neg
      exact ⟨by omega, hsne⟩
    obtain ⟨t, ht⟩ := Option.ne_none_iff_exists'.mp
      (mt List.getLast?_eq_none_iff.mp htake :
        (((dispersion_norm mat logFlag nb).insertionSort (fun a b => b ≤ a)).take n).getLast?
          ≠ none)
    have ht' : nlargestLast (dispersion_norm mat logFlag nb) n = some t := ht
    refine ⟨(dispersion_norm mat logFlag nb).map (fun v => decide (t ≤ v)), ?_, ?_, ?_⟩
    · show seurat_top_mask (dispersion_norm mat logFlag nb) n = _
      rw [seurat_top_mask, ht']
      rfl
    · rw [List.length_map, hdn]
    · rw [← hdn]
      exact count_ge_of_nlargestLast _ n t hn ht'
  · intro mean var predict nTop
    rw [svr_mask, List.length_map, svrScores, List.length_map, List.length_range]

/-- Witness for C3's amended statement at concrete inputs. -/
theorem C3_mask_length_and_count_witness :
    (∃ m, select_genes_by_seurat_dispersion [[1], [2]] 20 true (1/2) 100 (1/80) 3 (some 1)
        = some m ∧
      m.length = ([[1], [2]] : MatR).length ∧
      min 1 ([[1], [2]] : MatR).length ≤ m.count true) ∧
    (svr_mask [1] [1] (fun x => x) 1).length = ([1] : List ℝ).length := by
  obtain ⟨h1, h2⟩ := C3_mask_length_and_count_amended
  exact ⟨h1 [[1], [2]] 20 true (1/2) 100 (1/80) 3 1 (by norm_num) (by simp),
    h2 [1] [1] (fun x => x) 1⟩

/-!  Evaluation of the Seurat pipeline on the concrete 2-cell × 2-gene matrix
`[[0,2],[8,12]]` (columns = genes), with `log_mean_and_dispersion = False` and
`n_bins = 2`: gene 0 has mean 1, variance 1, dispersion 1; gene 1 has mean 10,
variance 4, dispersion 2/5.  Each gene lands alone in its bin, so both hit the
singleton-bin backfill and get normalized dispersion 1. -/

theorem exMat_meanDisp :
    seuratMeanDisp [[0, 2], [8, 12]] false = ([1, 10], [some 1, some (2/5)]) := by
  have h1 : colMeanR [0, 2] = 1 := by norm_num [colMeanR]
  have h2 : colMeanR [8, 12] = 10 := by norm_num [colMeanR]
  have h3 : colVarR [0, 2] = 1 := by norm_num [colVarR, colMeanR]
  have h4 : colVarR [8, 12] = 4 := by norm_num [colVarR, colMeanR]
  simp only [seuratMeanDisp, Bool.false_eq_true, if_false, List.map_cons, List.map_nil,
    h1, h2, h3, h4]
  norm_num

theorem exMat_min : listMinR [1, 10] = 1 := by
  rw [listMinR, List.min?_cons]
  norm_num [min_def]

theorem exMat_max : listMaxR [1, 10] = 10 := by
  rw [listMaxR, List.max?_cons]
  norm_num [max_def]

theorem exMat_bin0 : binIndex 1 10 2 1 = some 0 := by
  rw [binIndex, show List.range 2 = [0, 1] from rfl]
  apply List.find?_cons_of_pos
  rw [decide_eq_true_eq, if_pos rfl]
  norm_num

theorem exMat_bin1 : binIndex 1 10 2 10 = some 1 := by
  rw [binIndex, show List.range 2 = [0, 1] from rfl]
  rw [List.find?_cons_of_neg]
  · apply List.find?_cons_of_pos
    rw [decide_eq_true_eq, if_neg (by norm_num)]
    norm_num
  · simp only [decide_eq_true_eq]
    norm_num

theorem exMat_binDisps0 : binDisps [1, 10] [some 1, some (2/5)] 2 0 = [1] := by
  rw [binDisps]
  simp only [exMat_min, exMat_max, List.zip_cons_cons, List.zip_nil_right, List.zip_nil_left,
    List.filter_cons, List.filter_nil, exMat_bin0, exMat_bin1]
  norm_num [List.filterMap]

theorem exMat_binDisps1 : binDisps [1, 10] [some 1, some (2/5)] 2 1 = [2/5] := by
  rw [binDisps]
  simp only [exMat_min, exMat_max, List.zip_cons_cons, List.zip_nil_right, List.zip_nil_left,
    List.filter_cons, List.filter_nil, exMat_bin0, exMat_bin1]
  norm_num [List.filterMap]

theorem exMat_stats0 : binStats [1, 10] [some 1, some (2/5)] 2 0 = (some 0, some 1) := by
  rw [binStats, exMat_binDisps0]
  norm_num

theorem exMat_stats1 : binStats [1, 10] [some 1, some (2/5)] 2 1 = (some 0, some (2/5)) := by
  rw [binStats, exMat_binDisps1]
  norm_num

theorem exMat_dn : dispersion_norm [[0, 2], [8, 12]] false 2 = [1, 1] := by
  rw [dispersion_norm]
  simp only [exMat_meanDisp, exMat_min, exMat_max, List.zip_cons_cons, List.zip_nil_right,
    List.zip_nil_left, List.map_cons, List.map_nil, exMat_bin0, exMat_bin1, exMat_stats0,
    exMat_stats1]
  norm_num

/-- C3 counterexample: on the 2-gene matrix `[[0,2],[8,12]]` with
`n_top_genes = 1`, both genes' normalized dispersions tie at the threshold
value (both are 1, each gene sitting alone in its bin), so the returned
Seurat top-N mask has 2 True entries rather than exactly 1. -/
theorem C3_top_n_exact_count_counterexample :
    select_genes_by_seurat_dispersion [[0, 2], [8, 12]] 2 false (1/2) 100 (1/80) 3 (some 1)
      = some [true, true] ∧
    ([true, true].count true = 2 ∧ (2 : ℕ) ≠ 1) := by
  refine ⟨?_, by decide⟩
  show seurat_top_mask (dispersion_norm [[0, 2], [8, 12]] false 2) 1 = _
  rw [exMat_dn, seurat_top_mask, nlargestLast]
  have hsort : ([1, 1] : List ℝ).insertionSort (fun a b => b ≤ a) = [1, 1] := by
    apply List.Sorted.insertionSort_eq
    rw [List.sorted_cons]
    refine ⟨?_, List.sorted_singleton 1⟩
    intro bb hbb
    rw [List.mem_singleton.mp hbb]
  rw [hsort]
  rw [show (([1, 1] : List ℝ).take 1).getLast? = some 1 from rfl]
  rw [Option.map_some']
  simp only [List.map_cons, List.map_nil]
  norm_num

/-- C4 counterexample: gene 1 of the matrix `[[0,2],[8,12]]` (with
`log_mean_and_dispersion = False`, `n_bins = 2`) sits ALONE in its
mean-expression bin — the bin's valid dispersion list is exactly its own
`[2/5]` — yet its normalized dispersion is 1, not the claimed 0. -/
theorem C4_singleton_bin_counterexample :
    binIndex 1 10 2 10 = some 1 ∧
    binDisps [1, 10] [some 1, some (2/5)] 2 1 = [2/5] ∧
    (dispersion_norm [[0, 2], [8, 12]] false 2).getD 1 0 ≠ 0 := by
  refine ⟨exMat_bin1, exMat_binDisps1, ?_⟩
  rw [exMat_dn]
  norm_num

/-- C4 (amended): a gene `g` whose bin contains exactly one valid dispersion
entry — its own, nonzero `d` — gets normalized dispersion 1, not 0: the
backfill (lines 954-958) sets the bin std to the bin mean (= `d`) and the bin
mean to 0, so the normalization computes `(d - 0)/d = 1`.  (0 arises for such
a gene only when its transformed dispersion is 0 or NaN.) -/
theorem C4_singleton_bin_amended (mat : MatR) (logFlag : Bool) (nb g b : ℕ) (d : ℝ)
    (hg : g < mat.length)
    (hbin : binIndex (listMinR (seuratMeanDisp mat logFlag).1)
      (listMaxR (seuratMeanDisp mat logFlag).1) nb
      ((seuratMeanDisp mat logFlag).1.getD g 0) = some b)
    (hdisp : (seuratMeanDisp mat logFlag).2.getD g none = some d)
    (hsingle : binDisps (seuratMeanDisp mat logFlag).1 (seuratMeanDisp mat logFlag).2 nb b
      = [d])
    (hd : d ≠ 0) :
    (dispersion_norm mat logFlag nb).getD g 0 = 1 := by
  have h1 := seuratMeanDisp_fst_length mat logFlag
  have h2 := seuratMeanDisp_snd_length mat logFlag
  have hg1 : g < (seuratMeanDisp mat logFlag).1.length := by omega
  have hg2 : g < (seuratMeanDisp mat logFlag).2.length := by omega
  have hzlen : g < ((seuratMeanDisp mat logFlag).1.zip
      (seuratMeanDisp mat logFlag).2).length := by
    rw [List.length_zip]
    omega
  have hstats : binStats (seuratMeanDisp mat logFlag).1 (seuratMeanDisp mat logFlag).2 nb b
      = (some 0, some d) := by
    rw [binStats, hsingle]
    norm_num
  have hz : ((seuratMeanDisp mat logFlag).1.zip (seuratMeanDisp mat logFlag).2)[g]?
      = some ((seuratMeanDisp mat logFlag).1.getD g 0,
              (seuratMeanDisp mat logFlag).2.getD g none) := by
    rw [List.getElem?_eq_getElem hzlen, List.getElem_zip, List.getD_eq_getElem _ _ hg1,
      List.getD_eq_getElem _ _ hg2]
  rw [List.getD_eq_getElem?_getD, dispersion_norm, List.getElem?_map, hz, Option.map_some',
    Option.getD_some]
  simp only [hbin, hdisp, hstats]
  rw [if_neg hd, sub_zero, div_self hd]

/-- Witness for C4's amended statement: gene 1 of `[[0,2],[8,12]]`. -/
theorem C4_singleton_bin_witness :
    (dispersion_norm [[0, 2], [8, 12]] false 2).getD 1 0 = 1 := by
  apply C4_singleton_bin_amended [[0, 2], [8, 12]] false 2 1 1 (2/5)
  · norm_num
  · simp only [exMat_meanDisp]
    rw [exMat_min, exMat_max, show ([1, 10] : List ℝ).getD 1 0 = 10 from rfl]
    exact exMat_bin1
  · simp only [exMat_meanDisp]
    rfl
  · simp only [exMat_meanDisp]
    exact exMat_binDisps1
  · norm_num

end Dynamo
